import Mathlib

/-!
Verification of the endpoint-selection and health-tracking subsystem of the
inference gateway (`src/server/src/openai_v1/manager/load_balancer.py`) and of
the per-request dispatch accounting pattern (`openai_chat.py`,
`triton_embeddings.py`).

Shallow embedding conventions:
* `Time` is an integer number of seconds; `datetime.now() - last_failure <
  timedelta(minutes=5)` becomes `now - lf < 300`.
* Python `int` fields are `Int`; Python `float` arithmetic in `weight` is
  embedded over `Rat` (the expression `max(0.1, 1.0 - tf/tr)` and the
  comparisons the claims make about it are exact in `Rat`).
* The nested `defaultdict` stats table is a flat association list keyed by
  `(model_name, endpoint_key)`.  A `defaultdict` access that only creates an
  empty inner dict has no observable effect on any lookup, so it is the
  identity here.
* Randomness (`random.choice`, `random.choices`) is supplied by an explicit
  seed `r : Nat`; a uniform choice from a list `l` is `l.getD (r % l.length)`,
  and a weighted choice picks with the seed among the entries of positive
  weight (entries of weight 0 have probability 0 in `random.choices`).
* Fallible paths of `get_endpoint` (the `ValueError` raise and the
  `ports[0]` `IndexError` on an empty port list) return `Except.error`.
-/

namespace LoadBalancerModel

/-- Time in seconds (embeds `datetime`; differences embed `timedelta`). -/
abbrev Time := Int

/-- The `EndpointStats` dataclass: statistics for a single endpoint
(load_balancer.py lines 50-59). -/
structure EndpointStats where
  host : String
  port : Int
  active_connections : Int := 0
  total_requests : Int := 0
  total_failures : Int := 0
  last_failure : Option Time := none
  consecutive_failures : Int := 0
  deriving Repr, DecidableEq

/-- Embeds `EndpointStats.is_healthy` (lines 66-73): unhealthy when
`consecutive_failures >= 3` and the (set) `last_failure` satisfies
`now - last_failure < timedelta(minutes=5)`; healthy otherwise.
(A `datetime` object is always truthy, so `self.last_failure and ...` is
exactly the `some` case.) -/
def EndpointStats.is_healthy (s : EndpointStats) (now : Time) : Bool :=
  if 3 ≤ s.consecutive_failures then
    match s.last_failure with
    | some lf => if now - lf < 300 then false else true
    | none => true
  else true

/-- Embeds `EndpointStats.weight` (lines 75-86): 0 if unhealthy, 1 if no requests yet,
otherwise `max(0.1, 1.0 - total_failures / total_requests)`. -/
def EndpointStats.weight (s : EndpointStats) (now : Time) : Rat :=
  if ¬ s.is_healthy now then 0
  else if s.total_requests = 0 then 1
  else max (1/10) (1 - (s.total_failures : Rat) / (s.total_requests : Rat))

/-- The endpoint key string, Python `host` + ":" + `str(port)`, used by the stats table. -/
def endpointKey (host : String) (port : Int) : String :=
  host ++ ":" ++ toString port

/-- The record `EndpointStats(host=host, port=port)`: freshly created record with all
dataclass defaults. -/
def mkStats (host : String) (port : Int) : EndpointStats :=
  { host := host, port := port }

/-- The nested `defaultdict` stats table `_endpoint_stats`, flattened to an
association list keyed by `(model_name, endpoint_key)`. -/
abbrev StatsTable := List ((String × String) × EndpointStats)

/-- Lookup of the stats entry of `(model_name, endpoint_key)`. -/
def lookupStats : StatsTable → String → String → Option EndpointStats
  | [], _, _ => none
  | e :: t, m, k => if e.1 = (m, k) then some e.2 else lookupStats t m k

/-- In-place mutation of the entry under `(model, key)` (a no-op when the key
is absent, matching the `if endpoint_key in ...` guards in the source). -/
def updateStats (t : StatsTable) (m k : String) (f : EndpointStats → EndpointStats) :
    StatsTable :=
  t.map (fun e => if e.1 = (m, k) then (e.1, f e.2) else e)

/-- Creation of a missing stats entry (lines 145-146 of the source). -/
def insertIfMissing (t : StatsTable) (m k : String) (s : EndpointStats) : StatsTable :=
  if (lookupStats t m k).isSome then t else t ++ [((m, k), s)]

/-- The `LoadBalancer` object state: strategy string, stats table and the
per-model round-robin counters (`defaultdict(int)`). -/
structure LB where
  strategy : String
  stats : StatsTable
  counters : List (String × Nat)
  deriving Repr, DecidableEq

/-- Reads `self._round_robin_counters` at a model name (defaultdict: absent means 0). -/
def counterOf : List (String × Nat) → String → Nat
  | [], _ => 0
  | e :: t, m => if e.1 = m then e.2 else counterOf t m

/-- Writes `v` into `self._round_robin_counters` at a model name. -/
def setCounter : List (String × Nat) → String → Nat → List (String × Nat)
  | [], m, v => [(m, v)]
  | e :: t, m, v => if e.1 = m then (m, v) :: t else e :: setCounter t m v

/-- Lines 134-139 of `get_endpoint`: normalize `ports` to the length of
`hosts`.  A single port is broadcast; on any other length mismatch the source
logs a warning and uses `[ports[0]] * len(hosts)`, which raises `IndexError`
(modelled as `none`) when `ports` is empty. -/
def normalizePorts (hosts : List String) (ports : List Int) : Option (List Int) :=
  if ports.length = 1 then some (List.replicate hosts.length (ports.headD 0))
  else if ports.length ≠ hosts.length then
    match ports with
    | [] => none
    | p :: _ => some (List.replicate hosts.length p)
  else some ports

/-- Lines 141-146: ensure an `EndpointStats` entry exists for every
`(host, port)` pair about to be considered. -/
def initStats (model : String) : StatsTable → List (String × Int) → StatsTable
  | t, [] => t
  | t, (h, p) :: rest =>
      initStats model (insertIfMissing t model (endpointKey h p) (mkStats h p)) rest

/-- Embeds `_get_healthy_endpoints` (lines 240-248): the configured pairs whose stats
entry is currently healthy.  (Inside `get_endpoint` every pair has an entry,
so the `none` case of the lookup is unreachable there.) -/
def healthyEndpoints (t : StatsTable) (model : String) (now : Time)
    (pairs : List (String × Int)) : List (String × Int) :=
  pairs.filter (fun hp =>
    match lookupStats t model (endpointKey hp.1 hp.2) with
    | some s => s.is_healthy now
    | none => false)

/-- The `active_connections` of a pair's stats entry (lines 205-210). -/
def activeOf (t : StatsTable) (model : String) (hp : String × Int) : Int :=
  match lookupStats t model (endpointKey hp.1 hp.2) with
  | some s => s.active_connections
  | none => 0

/-- The `weight` of a pair's stats entry (lines 226-229). -/
def weightOf (t : StatsTable) (model : String) (now : Time) (hp : String × Int) : Rat :=
  match lookupStats t model (endpointKey hp.1 hp.2) with
  | some s => s.weight now
  | none => 0

/-- Lines 164-168 / 182-186 / 195-199 / 218-222: the healthy subset, falling
back to all configured endpoints when it is empty. -/
def healthyOrAll (t : StatsTable) (model : String) (now : Time)
    (pairs : List (String × Int)) : List (String × Int) :=
  if (healthyEndpoints t model now pairs).isEmpty then pairs
  else healthyEndpoints t model now pairs

/-- Embeds `_round_robin_select` (lines 161-177). -/
def round_robin_select (lb : LB) (hosts : List String) (ports : List Int)
    (model : String) (now : Time) : (String × Int) × LB :=
  let healthy := healthyOrAll lb.stats model now (hosts.zip ports)
  let counter := counterOf lb.counters model
  let index := counter % healthy.length
  (healthy.getD index ("", 0),
   { lb with counters := setCounter lb.counters model (counter + 1) })

/-- Embeds `_random_select` (lines 179-190); `random.choice` is modelled by the seed
`r` picking the index `r % len`. -/
def random_select (lb : LB) (hosts : List String) (ports : List Int)
    (model : String) (now : Time) (r : Nat) : (String × Int) × LB :=
  let healthy := healthyOrAll lb.stats model now (hosts.zip ports)
  (healthy.getD (r % healthy.length) ("", 0), lb)

/-- The scan of `_least_connections_select` (lines 201-210): starting from
`healthy[0]` with `min_connections = inf`, keep the first endpoint attaining
the strictly smallest `active_connections`. -/
def leastConnScan (t : StatsTable) (model : String) (first : String × Int)
    (rest : List (String × Int)) : String × Int :=
  rest.foldl (fun acc hp =>
    if activeOf t model hp < activeOf t model acc then hp else acc) first

/-- The selected pair of the least-connections scan (lines 201-210); the `[]`
arm is unreachable, the candidate list is never empty. -/
def leastConnChoice (t : StatsTable) (model : String)
    (healthy : List (String × Int)) : String × Int :=
  match healthy with
  | [] => ("", 0)
  | first :: rest => leastConnScan t model first rest

/-- Embeds `_least_connections_select` (lines 192-213). -/
def least_connections_select (lb : LB) (hosts : List String) (ports : List Int)
    (model : String) (now : Time) : (String × Int) × LB :=
  (leastConnChoice lb.stats model (healthyOrAll lb.stats model now (hosts.zip ports)),
   lb)

/-- Lines 224-233: the weight list of the healthy endpoints, with the
defensive all-zero guard replacing a zero-sum weight list by all ones. -/
def weightsFor (t : StatsTable) (model : String) (now : Time)
    (healthy : List (String × Int)) : List Rat :=
  if (healthy.map (weightOf t model now)).sum = 0 then
    healthy.map (fun _ => (1 : Rat))
  else healthy.map (weightOf t model now)

/-- Embeds `random.choices(healthy_endpoints, weights=weights, k=1)[0]`
(line 236): the seed picks among the entries of positive weight (a
zero-weight entry has probability 0).  The `[]` arm is unreachable when
called by `weighted_round_robin_select`: after the all-zero guard the weight
list is either all ones or has positive sum with every entry nonnegative. -/
def positiveWeightChoice (healthy : List (String × Int)) (weights : List Rat)
    (r : Nat) : String × Int :=
  match ((healthy.zip weights).filter (fun x => decide ((0 : Rat) < x.2))).map (·.1) with
  | [] => healthy.getD (r % healthy.length) ("", 0)
  | y :: ys => (y :: ys).getD (r % (y :: ys).length) ("", 0)

/-- Embeds `_weighted_round_robin_select` (lines 215-238). -/
def weighted_round_robin_select (lb : LB) (hosts : List String) (ports : List Int)
    (model : String) (now : Time) (r : Nat) : (String × Int) × LB :=
  (positiveWeightChoice (healthyOrAll lb.stats model now (hosts.zip ports))
     (weightsFor lb.stats model now (healthyOrAll lb.stats model now (hosts.zip ports)))
     r,
   lb)

/-- Embeds `get_endpoint` (lines 111-159).  Raising paths are `Except.error`; the
selected pair and the post-call balancer state are returned on success. -/
def get_endpoint (lb : LB) (hosts : List String) (ports : List Int)
    (model : String) (now : Time) (r : Nat) :
    Except String ((String × Int) × LB) :=
  match hosts with
  | [] => .error "No hosts provided for load balancing"
  | h0 :: hrest =>
    if hrest.isEmpty then
      .ok ((h0, ports.headD 8000), lb)
    else
      match normalizePorts hosts ports with
      | none => .error "IndexError: list index out of range"
      | some ports2 =>
        let lb2 : LB := { lb with stats := initStats model lb.stats (hosts.zip ports2) }
        if lb2.strategy = "round_robin" then
          .ok (round_robin_select lb2 hosts ports2 model now)
        else if lb2.strategy = "random" then
          .ok (random_select lb2 hosts ports2 model now r)
        else if lb2.strategy = "least_connections" then
          .ok (least_connections_select lb2 hosts ports2 model now)
        else if lb2.strategy = "weighted_round_robin" then
          .ok (weighted_round_robin_select lb2 hosts ports2 model now r)
        else
          .ok (round_robin_select lb2 hosts ports2 model now)

/-- Embeds `mark_request_start` (lines 250-265): increments `active_connections` and
`total_requests` if the entry exists, else a no-op. -/
def mark_request_start (lb : LB) (host : String) (port : Int) (model : String) : LB :=
  match lookupStats lb.stats model (endpointKey host port) with
  | none => lb
  | some _ =>
    { lb with stats := updateStats lb.stats model (endpointKey host port) (fun s =>
        { s with active_connections := s.active_connections + 1,
                 total_requests := s.total_requests + 1 }) }

/-- Embeds `mark_request_end` (lines 267-291): decrements `active_connections`
(floored at 0); on failure increments `total_failures` and
`consecutive_failures` and sets `last_failure := now`; on success resets
`consecutive_failures` to 0.  A no-op if the entry is missing. -/
def mark_request_end (lb : LB) (host : String) (port : Int) (model : String)
    (success : Bool) (now : Time) : LB :=
  match lookupStats lb.stats model (endpointKey host port) with
  | none => lb
  | some _ =>
    { lb with stats := updateStats lb.stats model (endpointKey host port) (fun s =>
        let s2 := { s with active_connections := max 0 (s.active_connections - 1) }
        if success then { s2 with consecutive_failures := 0 }
        else { s2 with total_failures := s2.total_failures + 1,
                       consecutive_failures := s2.consecutive_failures + 1,
                       last_failure := some now }) }

/-- Balancer-accounting events a dispatch wrapper can emit. -/
inductive LBEvent where
  | start
  | endOk
  | endFail
  deriving Repr, DecidableEq

/-- Execution scenarios of the buffered chat wrapper `openai_chat_completion`
(openai_chat.py lines 84-204), distinguished by which step, if any, raises. -/
inductive ChatScenario where
  | prepFails
  | callFails
  | xlateFails
  | ok
  deriving Repr, DecidableEq

/-- Execution scenarios of the buffered embeddings wrapper `triton_embeddings`
(triton_embeddings.py lines 34-292). -/
inductive TritonScenario where
  | callFails
  | xlateFails
  | ok
  deriving Repr, DecidableEq

/-- The sequence of balancer accounting calls made by `openai_chat_completion`
in each scenario: `mark_request_start` (line 106), then inside the `try`,
`prepare_request_params` (line 110), the downstream call (line 128) and the
response translation (lines 135-169) may raise — each lands in an `except`
arm that calls `mark_request_end(success=False)` (lines 194, 201); the
success path calls `mark_request_end(success=True)` at line 172 after
translation. -/
def openai_chat_events : ChatScenario → List LBEvent
  | .prepFails => [.start, .endFail]
  | .callFails => [.start, .endFail]
  | .xlateFails => [.start, .endFail]
  | .ok => [.start, .endOk]

/-- The sequence of balancer accounting calls made by `triton_embeddings` in
each scenario: `mark_request_start` (line 124); a raise in
`triton_client.infer` (line 145) lands in an `except` arm calling
`mark_request_end(success=False)` (lines 282, 289); when `infer` returns,
`mark_request_end(success=True)` runs at line 154 BEFORE the response
translation (lines 159-278), so a raise during translation additionally
reaches the generic `except` arm and calls `mark_request_end(success=False)`
a second time (line 289). -/
def triton_embeddings_events : TritonScenario → List LBEvent
  | .callFails => [.start, .endFail]
  | .xlateFails => [.start, .endOk, .endFail]
  | .ok => [.start, .endOk]

/-- Counts the `mark_request_start` events of a wrapper execution. -/
def countStart (evs : List LBEvent) : Nat :=
  evs.countP (fun e => e = LBEvent.start)

/-- Decides whether an event is a `mark_request_end` call (either outcome). -/
def isEndEvent : LBEvent → Bool
  | .start => false
  | .endOk => true
  | .endFail => true

/-- Counts the `mark_request_end` events of a wrapper execution. -/
def countEnd (evs : List LBEvent) : Nat :=
  evs.countP isEndEvent

/-- Iterates `get_endpoint` with fixed arguments: the list of selected pairs
of `k` consecutive calls, and the balancer state after them.  (Used for the
round-robin claims; the random seed is irrelevant under `round_robin`.) -/
def runRoundRobin (lb : LB) (hosts : List String) (ports : List Int)
    (model : String) (now : Time) : Nat → List (String × Int) × LB
  | 0 => ([], lb)
  | k + 1 =>
    match get_endpoint lb hosts ports model now 0 with
    | .ok (hp, lb') =>
      let next := runRoundRobin lb' hosts ports model now k
      (hp :: next.1, next.2)
    | .error _ => ([], lb)

/-- Balancer API calls, for reasoning about call traces. -/
inductive LBOp where
  | select (hosts : List String) (ports : List Int) (model : String)
      (now : Time) (r : Nat)
  | reqStart (host : String) (port : Int) (model : String)
  | reqEnd (host : String) (port : Int) (model : String) (success : Bool)
      (now : Time)

/-- Effect of one balancer API call on the balancer state (a raising
`get_endpoint` leaves the state unchanged: both raises happen before any
mutation). -/
def stepOp (lb : LB) : LBOp → LB
  | .select hosts ports model now r =>
    match get_endpoint lb hosts ports model now r with
    | .ok (_, lb') => lb'
    | .error _ => lb
  | .reqStart h p m => mark_request_start lb h p m
  | .reqEnd h p m suc now => mark_request_end lb h p m suc now

/-- Runs a trace of balancer API calls. -/
def runOps (lb : LB) : List LBOp → LB
  | [] => lb
  | op :: rest => runOps (stepOp lb op) rest

/-- Holds when an operation, if it is a `get_endpoint` call for model `m`,
passes a single-element host list. -/
def singleHostFor (m : String) : LBOp → Prop
  | .select hosts _ model _ _ => model = m → hosts.length = 1
  | _ => True

/-- Holds when the stats table has no entry at all for model `m`. -/
def noModelEntry (t : StatsTable) (m : String) : Prop :=
  ∀ e ∈ t, e.1.1 ≠ m

/-- A fresh balancer with the default `round_robin` strategy, as built by
`LoadBalancer()`. -/
def lbEmpty : LB :=
  { strategy := "round_robin", stats := [], counters := [] }

/-- A balancer holding one stats entry for model `m` at endpoint `h:1`
(fixture for concrete witnesses). -/
def lbOne : LB :=
  { strategy := "round_robin",
    stats := [(("m", endpointKey "h" 1), mkStats "h" 1)],
    counters := [] }

/-- A balancer holding two healthy stats entries for model `m` (fixture for
the round-robin witness). -/
def lbTwo : LB :=
  { strategy := "round_robin",
    stats := [(("m", endpointKey "a" 1), mkStats "a" 1),
              (("m", endpointKey "b" 2), mkStats "b" 2)],
    counters := [] }

end LoadBalancerModel

namespace LoadBalancerModel

/-- Stats record used by concrete witnesses: 3 consecutive failures, the last
one recorded at time 0. -/
def sFail : EndpointStats :=
  { host := "h", port := 1, consecutive_failures := 3, last_failure := some 0 }

/-- C1: `is_healthy` is false exactly when `consecutive_failures >= 3` and a
failure is recorded strictly within the last 5 minutes (300 s); in every other
state it is true.  The hypothesis says the recorded failure time is not in the
observation's future, which is how every recorded `last_failure = now` value
relates to later observation times. -/
theorem is_healthy_false_iff (s : EndpointStats) (now : Time)
    (h : ∀ lf, s.last_failure = some lf → lf ≤ now) :
    s.is_healthy now = false ↔
      3 ≤ s.consecutive_failures ∧
        ∃ lf, s.last_failure = some lf ∧ 0 ≤ now - lf ∧ now - lf < 300 := by
  rcases hlf : s.last_failure with _ | lf
  · refine iff_of_false ?_ ?_
    · simp [EndpointStats.is_healthy, hlf]
    · rintro ⟨-, lf, heq, -⟩
      exact Option.noConfusion heq
  · have hle : lf ≤ now := h lf hlf
    simp only [EndpointStats.is_healthy, hlf]
    split_ifs with h3 h5
    · exact iff_of_true rfl ⟨h3, lf, rfl, sub_nonneg.mpr hle, h5⟩
    · refine iff_of_false (by simp) ?_
      rintro ⟨-, lf', heq, -, hlt⟩
      obtain rfl : lf = lf' := by injection heq
      exact h5 hlt
    · refine iff_of_false (by simp) ?_
      rintro ⟨h3', -⟩
      exact h3 h3'

/-- Concrete instance of `is_healthy_false_iff`: 3 consecutive failures with a
failure recorded 100 s before the observation. -/
theorem is_healthy_false_iff_witness :
    sFail.is_healthy 100 = false ↔
      3 ≤ sFail.consecutive_failures ∧
        ∃ lf, sFail.last_failure = some lf ∧
          0 ≤ (100 : Int) - lf ∧ (100 : Int) - lf < 300 :=
  is_healthy_false_iff sFail 100
    (fun lf hlf => by
      have h2 : some (0 : Time) = some lf := hlf
      injection h2 with h3
      subst h3
      decide)

/-- C6: `weight` is 0 when unhealthy, 1 when no requests are recorded, and
otherwise `max(0.1, 1 - total_failures/total_requests)`; a healthy endpoint
with 100 requests and 95 failures has weight exactly 0.1, and a healthy
endpoint never has weight 0. -/
theorem weight_spec (s : EndpointStats) (now : Time) :
    (s.is_healthy now = false → s.weight now = 0) ∧
    (s.is_healthy now = true → s.total_requests = 0 → s.weight now = 1) ∧
    (s.is_healthy now = true → s.total_requests ≠ 0 →
      s.weight now =
        max (1/10) (1 - (s.total_failures : Rat) / (s.total_requests : Rat))) ∧
    (s.is_healthy now = true → s.total_requests = 100 → s.total_failures = 95 →
      s.weight now = 1/10) ∧
    (s.is_healthy now = true → 0 < s.weight now) := by
  refine ⟨fun hf => by simp [EndpointStats.weight, hf],
    fun ht h0 => by simp [EndpointStats.weight, ht, h0],
    fun ht h0 => by simp [EndpointStats.weight, ht, h0],
    fun ht h100 h95 => ?_, fun ht => ?_⟩
  · have htr : s.total_requests ≠ 0 := by rw [h100]; norm_num
    have hw : s.weight now =
        max (1/10) (1 - (s.total_failures : Rat) / (s.total_requests : Rat)) := by
      simp [EndpointStats.weight, ht, htr]
    rw [hw, h100, h95]
    have h2 : (1 : Rat) - ((95 : Int) : Rat) / ((100 : Int) : Rat) = 1/20 := by
      norm_num
    rw [h2, max_eq_left (by norm_num)]
  · by_cases h0 : s.total_requests = 0
    · simp [EndpointStats.weight, ht, h0]
    · have hw : s.weight now =
          max (1/10) (1 - (s.total_failures : Rat) / (s.total_requests : Rat)) := by
        simp [EndpointStats.weight, ht, h0]
      rw [hw]
      calc (0 : Rat) < 1/10 := by norm_num
        _ ≤ _ := le_max_left _ _

/-- Concrete instance of `weight_spec`: a healthy endpoint with
`total_requests = 100`, `total_failures = 95` has weight exactly 1/10. -/
theorem weight_spec_witness :
    (EndpointStats.weight
        { host := "h", port := 1, total_requests := 100,
          total_failures := 95 } 0) = 1/10 :=
  (weight_spec
      { host := "h", port := 1, total_requests := 100, total_failures := 95 }
      0).2.2.2.1 (by decide) rfl rfl

/-- Helper: looking up the updated key returns the mapped entry. -/
theorem lookupStats_update (t : StatsTable) (m k : String)
    (f : EndpointStats → EndpointStats) :
    lookupStats (updateStats t m k f) m k = (lookupStats t m k).map f := by
  induction t with
  | nil => rfl
  | cons e t ih =>
    simp only [updateStats, List.map_cons, lookupStats]
    by_cases he : e.1 = (m, k)
    · simp [he, lookupStats]
    · simp only [he, if_false, lookupStats]
      exact ih

/-- C3 (code bug): on the response-translation-failure path of
`triton_embeddings` the balancer receives one `mark_request_start` but TWO
`mark_request_end` calls (`success=True` at line 154 before translation, then
`success=False` in the generic `except` arm), while `openai_chat_completion`
emits exactly one start and one end on every path. -/
theorem triton_embeddings_double_end :
    countStart (triton_embeddings_events .xlateFails) = 1 ∧
    countEnd (triton_embeddings_events .xlateFails) = 2 ∧
    (∀ sc : ChatScenario,
      countStart (openai_chat_events sc) = 1 ∧
      countEnd (openai_chat_events sc) = 1) ∧
    (∀ sc : TritonScenario, sc ≠ .xlateFails →
      countStart (triton_embeddings_events sc) = 1 ∧
      countEnd (triton_embeddings_events sc) = 1) := by
  refine ⟨rfl, rfl, fun sc => ?_, fun sc hsc => ?_⟩
  · cases sc <;> exact ⟨rfl, rfl⟩
  · cases sc
    · exact ⟨rfl, rfl⟩
    · exact absurd rfl hsc
    · exact ⟨rfl, rfl⟩

/-- C9: a `get_endpoint` call with exactly one host returns
`(hosts[0], ports[0] if ports else 8000)` and leaves the balancer state
completely unchanged — no stats entry, no counter, no strategy dispatch. -/
theorem single_host_no_state_change (lb : LB) (hosts : List String)
    (ports : List Int) (model : String) (now : Time) (r : Nat)
    (h : hosts.length = 1) :
    get_endpoint lb hosts ports model now r =
      .ok ((hosts.headD "", ports.headD 8000), lb) := by
  rcases hosts with _ | ⟨h0, _ | ⟨h1, rest⟩⟩
  · simp at h
  · rfl
  · simp at h

/-- Concrete instance of `single_host_no_state_change`:
`get_endpoint(["h"], [80], "m")` returns `("h", 80)` with the state intact. -/
theorem single_host_no_state_change_witness :
    get_endpoint lbEmpty ["h"] [80] "m" 0 0 = .ok (("h", 80), lbEmpty) :=
  single_host_no_state_change lbEmpty ["h"] [80] "m" 0 0 rfl

/-- C4: for an existing stats entry, `mark_request_end` decrements
`active_connections` floored at 0 (never negative); on failure it increments
`total_failures` and `consecutive_failures` and records `last_failure = now`;
on success it resets `consecutive_failures` to 0 and leaves `total_failures`,
`total_requests` and `last_failure` unchanged. -/
theorem mark_request_end_spec (lb : LB) (host : String) (port : Int)
    (model : String) (now : Time) (success : Bool) (s : EndpointStats)
    (h : lookupStats lb.stats model (endpointKey host port) = some s) :
    ∃ s', lookupStats (mark_request_end lb host port model success now).stats
            model (endpointKey host port) = some s' ∧
      s'.active_connections = max 0 (s.active_connections - 1) ∧
      0 ≤ s'.active_connections ∧
      s'.total_requests = s.total_requests ∧
      (success = false → s'.total_failures = s.total_failures + 1 ∧
        s'.consecutive_failures = s.consecutive_failures + 1 ∧
        s'.last_failure = some now) ∧
      (success = true → s'.consecutive_failures = 0 ∧
        s'.total_failures = s.total_failures ∧
        s'.last_failure = s.last_failure) := by
  simp only [mark_request_end, h]
  rw [lookupStats_update, h]
  cases success
  · exact ⟨_, rfl, rfl, le_max_left _ _, rfl,
      fun _ => ⟨rfl, rfl, rfl⟩, fun hc => Bool.noConfusion hc⟩
  · exact ⟨_, rfl, rfl, le_max_left _ _, rfl,
      fun hc => Bool.noConfusion hc, fun _ => ⟨rfl, rfl, rfl⟩⟩

/-- Concrete instance of `mark_request_end_spec`: a failed request end on the
only entry of `lbOne`. -/
theorem mark_request_end_spec_witness :
    ∃ s', lookupStats (mark_request_end lbOne "h" 1 "m" false 7).stats
            "m" (endpointKey "h" 1) = some s' ∧
      s'.active_connections = max 0 ((mkStats "h" 1).active_connections - 1) ∧
      0 ≤ s'.active_connections ∧
      s'.total_requests = (mkStats "h" 1).total_requests ∧
      (false = false → s'.total_failures = (mkStats "h" 1).total_failures + 1 ∧
        s'.consecutive_failures = (mkStats "h" 1).consecutive_failures + 1 ∧
        s'.last_failure = some 7) ∧
      (false = true → s'.consecutive_failures = 0 ∧
        s'.total_failures = (mkStats "h" 1).total_failures ∧
        s'.last_failure = (mkStats "h" 1).last_failure) :=
  mark_request_end_spec lbOne "h" 1 "m" 7 false (mkStats "h" 1) rfl

/-- Helper: with at least two hosts and at least one port, `get_endpoint`
returns normally under every strategy. -/
theorem get_endpoint_multi_ok (lb : LB) (h0 h1 : String) (hs : List String)
    (p : Int) (ps : List Int) (model : String) (now : Time) (r : Nat) :
    ∃ out, get_endpoint lb (h0 :: h1 :: hs) (p :: ps) model now r = .ok out := by
  obtain ⟨ps2, hps⟩ : ∃ ps2,
      normalizePorts (h0 :: h1 :: hs) (p :: ps) = some ps2 := by
    unfold normalizePorts
    split_ifs <;> exact ⟨_, rfl⟩
  simp only [get_endpoint, List.isEmpty_cons, Bool.false_eq_true, if_false, hps]
  split_ifs <;> exact ⟨_, rfl⟩

/-- C7 counterexample: a call with a NON-empty host list that still raises —
two hosts and an empty ports list hit the `ports[0]` access in the
length-mismatch branch (line 139), an `IndexError`, so "get_endpoint raises
if and only if the hosts list is empty" is false as stated. -/
theorem get_endpoint_empty_ports_raises :
    (["a", "b"] : List String) ≠ [] ∧
    get_endpoint lbEmpty ["a", "b"] ([] : List Int) "m" 0 0 =
      .error "IndexError: list index out of range" :=
  ⟨by decide, rfl⟩

/-- C7 amended: `get_endpoint` raises the InvalidInput `ValueError` exactly on
an empty hosts list, raises `IndexError` when two or more hosts come with an
empty ports list, and returns normally on every other input (any stats-table
state, any model name, any strategy). -/
theorem get_endpoint_raises_iff (lb : LB) (hosts : List String)
    (ports : List Int) (model : String) (now : Time) (r : Nat) :
    (hosts = [] → get_endpoint lb hosts ports model now r =
        .error "No hosts provided for load balancing") ∧
    (hosts ≠ [] → hosts.length ≠ 1 → ports = [] →
      get_endpoint lb hosts ports model now r =
        .error "IndexError: list index out of range") ∧
    (hosts ≠ [] → (hosts.length = 1 ∨ ports ≠ []) →
      ∃ out, get_endpoint lb hosts ports model now r = .ok out) := by
  refine ⟨fun he => by subst he; rfl, fun hne h1 hp => ?_, fun hne hor => ?_⟩
  · subst hp
    rcases hosts with _ | ⟨a0, _ | ⟨a1, rest⟩⟩
    · exact absurd rfl hne
    · exact absurd rfl h1
    · have hnp : normalizePorts (a0 :: a1 :: rest) ([] : List Int) = none := by
        unfold normalizePorts
        rw [if_neg (by simp), if_pos (by simp)]
      simp [get_endpoint, hnp]
  · rcases hosts with _ | ⟨a0, _ | ⟨a1, rest⟩⟩
    · exact absurd rfl hne
    · exact ⟨_, rfl⟩
    · have hpne : ports ≠ [] := by
        rcases hor with h1 | hp
        · simp at h1
        · exact hp
      rcases ports with _ | ⟨p, pr⟩
      · exact absurd rfl hpne
      · exact get_endpoint_multi_ok lb a0 a1 rest p pr model now r

/-- Concrete instance of `get_endpoint_raises_iff`: two hosts with matching
ports return normally. -/
theorem get_endpoint_raises_iff_witness :
    ∃ out, get_endpoint lbEmpty ["a", "b"] [1, 2] "m" 0 0 = .ok out :=
  (get_endpoint_raises_iff lbEmpty ["a", "b"] [1, 2] "m" 0 0).2.2
    (by decide) (Or.inr (by decide))

/-- C8 counterexample: hosts `["a","b","c"]` with ports `[5,7]` — the claim
predicts the pairs `(a,5), (b,7), (c,5)`, but three fresh round-robin
selections yield `(a,5), (b,5), (c,5)`: the source replaces the whole port
list by `[ports[0]] * len(hosts)`, so host `"b"` does NOT keep its paired
port 7. -/
theorem ports_pairing_counterexample :
    (runRoundRobin lbEmpty ["a", "b", "c"] [5, 7] "m" 0 3).1 =
      [("a", 5), ("b", 5), ("c", 5)] ∧
    (runRoundRobin lbEmpty ["a", "b", "c"] [5, 7] "m" 0 3).1.getD 1 ("", 0) ≠
      ("b", 7) := by
  exact ⟨by decide, by decide⟩

/-- C8 amended: when the ports list has two or more entries and its length
differs from the hosts list, EVERY host is assigned the first port
`ports[0]` — including hosts that have a paired port at their own index;
`["a","b","c"]` with `[p,q]` yields the pairs `(a,p), (b,p), (c,p)`. -/
theorem normalize_ports_all_first (hosts : List String) (p q : Int)
    (rest : List Int) (h : (p :: q :: rest).length ≠ hosts.length) :
    normalizePorts hosts (p :: q :: rest) =
      some (List.replicate hosts.length p) := by
  unfold normalizePorts
  rw [if_neg (by simp), if_pos h]

/-- Concrete instance of `normalize_ports_all_first`: three hosts, two ports. -/
theorem normalize_ports_all_first_witness :
    normalizePorts ["a", "b", "c"] [5, 7] = some [5, 5, 5] :=
  normalize_ports_all_first ["a", "b", "c"] 5 7 [] (by decide)

/-- Helper: an index reduced mod the length selects an element of the list. -/
theorem getD_mod_mem {α : Type} (l : List α) (n : Nat) (d : α) (h : l ≠ []) :
    l.getD (n % l.length) d ∈ l := by
  have hpos : 0 < l.length := List.length_pos.mpr h
  have hlt : n % l.length < l.length := Nat.mod_lt _ hpos
  rw [List.getD_eq_getElem l d hlt]
  exact List.getElem_mem hlt

/-- Helper: the healthy-or-all fallback list only contains configured pairs. -/
theorem healthyOrAll_subset (t : StatsTable) (model : String) (now : Time)
    (pairs : List (String × Int)) {x : String × Int}
    (hx : x ∈ healthyOrAll t model now pairs) : x ∈ pairs := by
  unfold healthyOrAll at hx
  split at hx
  · exact hx
  · exact (List.mem_filter.mp hx).1

/-- Helper: the healthy-or-all fallback list is nonempty when the configured
list is. -/
theorem healthyOrAll_ne_nil (t : StatsTable) (model : String) (now : Time)
    (pairs : List (String × Int)) (h : pairs ≠ []) :
    healthyOrAll t model now pairs ≠ [] := by
  unfold healthyOrAll
  split
  · exact h
  · next hne =>
    intro hc
    rw [hc] at hne
    exact hne rfl

/-- Helper: the least-connections scan returns one of its candidates. -/
theorem leastConnScan_mem (t : StatsTable) (model : String) :
    ∀ (rest : List (String × Int)) (first : String × Int),
      leastConnScan t model first rest ∈ first :: rest := by
  intro rest
  induction rest with
  | nil => intro first; simp [leastConnScan]
  | cons x xs ih =>
    intro first
    unfold leastConnScan at ih ⊢
    simp only [List.foldl_cons]
    by_cases hc : activeOf t model x < activeOf t model first
    · rw [if_pos hc]
      exact List.mem_cons_of_mem _ (ih x)
    · rw [if_neg hc]
      rcases List.mem_cons.mp (ih first) with h | h
      · exact List.mem_cons.mpr (Or.inl h)
      · exact List.mem_cons_of_mem _ (List.mem_cons_of_mem _ h)

/-- Helper: the positive-weight choice returns one of the healthy candidates. -/
theorem positiveWeightChoice_mem (healthy : List (String × Int))
    (weights : List Rat) (r : Nat) (h : healthy ≠ []) :
    positiveWeightChoice healthy weights r ∈ healthy := by
  have hsub : ∀ x ∈ ((healthy.zip weights).filter
      (fun x => decide ((0 : Rat) < x.2))).map (·.1), x ∈ healthy := by
    intro x hx
    rcases List.mem_map.mp hx with ⟨z, hz, hzeq⟩
    rw [← hzeq]
    exact (List.of_mem_zip (List.mem_filter.mp hz).1).1
  unfold positiveWeightChoice
  rcases hpos : ((healthy.zip weights).filter
      (fun x => decide ((0 : Rat) < x.2))).map (·.1) with _ | ⟨y, ys⟩
  · rw [hpos]
    exact getD_mod_mem _ _ _ h
  · rw [hpos]
    refine hsub _ ?_
    rw [hpos]
    exact getD_mod_mem (y :: ys) r ("", 0) (by simp)

/-- Helper: `_round_robin_select` returns a configured pair. -/
theorem round_robin_select_mem (lb : LB) (hosts : List String)
    (ports : List Int) (model : String) (now : Time)
    (h : hosts.zip ports ≠ []) :
    (round_robin_select lb hosts ports model now).1 ∈ hosts.zip ports :=
  healthyOrAll_subset _ _ _ _
    (getD_mod_mem _ _ _ (healthyOrAll_ne_nil _ _ _ _ h))

/-- Helper: `_random_select` returns a configured pair. -/
theorem random_select_mem (lb : LB) (hosts : List String) (ports : List Int)
    (model : String) (now : Time) (r : Nat) (h : hosts.zip ports ≠ []) :
    (random_select lb hosts ports model now r).1 ∈ hosts.zip ports :=
  healthyOrAll_subset _ _ _ _
    (getD_mod_mem _ _ _ (healthyOrAll_ne_nil _ _ _ _ h))

/-- Helper: the least-connections choice returns one of its candidates. -/
theorem leastConnChoice_mem (t : StatsTable) (model : String)
    (healthy : List (String × Int)) (h : healthy ≠ []) :
    leastConnChoice t model healthy ∈ healthy := by
  rcases healthy with _ | ⟨first, rest⟩
  · exact absurd rfl h
  · show leastConnScan t model first rest ∈ first :: rest
    exact leastConnScan_mem t model rest first

/-- Helper: `_least_connections_select` returns a configured pair. -/
theorem least_connections_select_mem (lb : LB) (hosts : List String)
    (ports : List Int) (model : String) (now : Time)
    (h : hosts.zip ports ≠ []) :
    (least_connections_select lb hosts ports model now).1 ∈ hosts.zip ports :=
  healthyOrAll_subset _ _ _ _
    (leastConnChoice_mem _ _ _ (healthyOrAll_ne_nil _ _ _ _ h))

/-- Helper: `_weighted_round_robin_select` returns a configured pair. -/
theorem weighted_round_robin_select_mem (lb : LB) (hosts : List String)
    (ports : List Int) (model : String) (now : Time) (r : Nat)
    (h : hosts.zip ports ≠ []) :
    (weighted_round_robin_select lb hosts ports model now r).1 ∈ hosts.zip ports :=
  healthyOrAll_subset _ _ _ _
    (positiveWeightChoice_mem _ _ _ (healthyOrAll_ne_nil _ _ _ _ h))

/-- Helper: with matching list lengths (and two or more hosts) the ports list
passes normalization unchanged. -/
theorem normalizePorts_eq_self (hosts : List String) (ports : List Int)
    (h2 : 2 ≤ hosts.length) (hlen : ports.length = hosts.length) :
    normalizePorts hosts ports = some ports := by
  unfold normalizePorts
  rw [if_neg (by omega), if_neg (by omega)]

/-- Helper: a zip of two lists of equal length two or more is nonempty. -/
theorem zip_ne_nil_of_len (hosts : List String) (ports : List Int)
    (h2 : 2 ≤ hosts.length) (hlen : ports.length = hosts.length) :
    hosts.zip ports ≠ [] := by
  intro hc
  have hzlen : (hosts.zip ports).length = hosts.length := by
    rw [List.length_zip, hlen, min_self]
  rw [hc] at hzlen
  simp only [List.length_nil] at hzlen
  omega

/-- C5: for every `get_endpoint` call with at least two hosts and a ports
list of matching length, under EVERY strategy (including unknown strategy
names and the all-unhealthy fallback) the call returns normally and the
selected pair is one of the configured `(host, port)` pairs. -/
theorem get_endpoint_mem_configured (lb : LB) (hosts : List String)
    (ports : List Int) (model : String) (now : Time) (r : Nat)
    (h2 : 2 ≤ hosts.length) (hlen : ports.length = hosts.length) :
    ∃ hp lb', get_endpoint lb hosts ports model now r = .ok (hp, lb') ∧
      hp ∈ hosts.zip ports := by
  rcases hosts with _ | ⟨a0, _ | ⟨a1, rest⟩⟩
  · simp at h2
  · simp at h2
  · have hnp := normalizePorts_eq_self (a0 :: a1 :: rest) ports h2 hlen
    have hzne := zip_ne_nil_of_len (a0 :: a1 :: rest) ports h2 hlen
    simp only [get_endpoint, List.isEmpty_cons, Bool.false_eq_true, if_false, hnp]
    split_ifs
    · exact ⟨_, _, rfl, round_robin_select_mem _ _ _ _ _ hzne⟩
    · exact ⟨_, _, rfl, random_select_mem _ _ _ _ _ _ hzne⟩
    · exact ⟨_, _, rfl, least_connections_select_mem _ _ _ _ _ hzne⟩
    · exact ⟨_, _, rfl, weighted_round_robin_select_mem _ _ _ _ _ _ hzne⟩
    · exact ⟨_, _, rfl, round_robin_select_mem _ _ _ _ _ hzne⟩

/-- Concrete instance of `get_endpoint_mem_configured`: a fresh balancer with
two hosts and two ports. -/
theorem get_endpoint_mem_configured_witness :
    ∃ hp lb', get_endpoint lbEmpty ["a", "b"] [1, 2] "m" 0 0 = .ok (hp, lb') ∧
      hp ∈ (["a", "b"] : List String).zip ([1, 2] : List Int) :=
  get_endpoint_mem_configured lbEmpty ["a", "b"] [1, 2] "m" 0 0
    (by decide) (by decide)

/-- Helper: when every pair already has a stats entry, the entry-creation
loop leaves the table unchanged. -/
theorem initStats_id (model : String) (t : StatsTable)
    (pairs : List (String × Int))
    (h : ∀ hp ∈ pairs, (lookupStats t model (endpointKey hp.1 hp.2)).isSome = true) :
    initStats model t pairs = t := by
  induction pairs with
  | nil => rfl
  | cons hp rest ih =>
    have h1 := h hp (List.mem_cons_self _ _)
    rcases hp with ⟨hh, pp⟩
    simp only [initStats, insertIfMissing, h1, if_true]
    exact ih (fun q hq => h q (List.mem_cons_of_mem _ hq))

/-- Helper: if the healthy filter keeps every pair, every pair has a stats
entry. -/
theorem healthy_filter_isSome (t : StatsTable) (model : String) (now : Time)
    (pairs : List (String × Int))
    (h : healthyEndpoints t model now pairs = pairs) :
    ∀ hp ∈ pairs, (lookupStats t model (endpointKey hp.1 hp.2)).isSome = true := by
  intro hp hmem
  have hall := List.filter_eq_self.mp h hp hmem
  revert hall
  cases hlook : lookupStats t model (endpointKey hp.1 hp.2) with
  | none => intro hall; exact Bool.noConfusion hall
  | some s => intro _; rfl

/-- Helper: when every configured pair is healthy, the fallback list is the
configured list itself. -/
theorem healthyOrAll_of_all_healthy (t : StatsTable) (model : String)
    (now : Time) (pairs : List (String × Int)) (hne : pairs ≠ [])
    (h : healthyEndpoints t model now pairs = pairs) :
    healthyOrAll t model now pairs = pairs := by
  rcases pairs with _ | ⟨x, xs⟩
  · exact absurd rfl hne
  · unfold healthyOrAll
    rw [h]
    exact ite_self _

/-- Helper: reading back a just-written round-robin counter. -/
theorem counterOf_setCounter (cs : List (String × Nat)) (m : String) (v : Nat) :
    counterOf (setCounter cs m v) m = v := by
  induction cs with
  | nil => simp [setCounter, counterOf]
  | cons e t ih =>
    by_cases he : e.1 = m
    · simp [setCounter, he, counterOf]
    · simp [setCounter, he, counterOf, ih]

/-- Helper: one `get_endpoint` call under `round_robin` with a stable
all-healthy table returns the pair at the counter position and increments
the counter, leaving the stats table unchanged. -/
theorem rr_step (lb : LB) (hosts : List String) (ports : List Int)
    (model : String) (now : Time) (r : Nat)
    (hstrat : lb.strategy = "round_robin")
    (h2 : 2 ≤ hosts.length) (hlen : ports.length = hosts.length)
    (hhealthy : healthyEndpoints lb.stats model now (hosts.zip ports) =
      hosts.zip ports) :
    get_endpoint lb hosts ports model now r =
      .ok ((hosts.zip ports).getD
             (counterOf lb.counters model % (hosts.zip ports).length) ("", 0),
           { lb with counters :=
               setCounter lb.counters model (counterOf lb.counters model + 1) }) := by
  rcases hosts with _ | ⟨a0, _ | ⟨a1, rest⟩⟩
  · simp at h2
  · simp at h2
  · have hnp := normalizePorts_eq_self (a0 :: a1 :: rest) ports h2 hlen
    have hzne := zip_ne_nil_of_len (a0 :: a1 :: rest) ports h2 hlen
    have hins : initStats model lb.stats ((a0 :: a1 :: rest).zip ports) = lb.stats :=
      initStats_id model lb.stats _
        (healthy_filter_isSome lb.stats model now _ hhealthy)
    simp only [get_endpoint, List.isEmpty_cons, Bool.false_eq_true, if_false,
      hnp, hins, hstrat, if_true]
    unfold round_robin_select
    rw [healthyOrAll_of_all_healthy lb.stats model now _ hzne hhealthy]

/-- Helper: `k` consecutive round-robin `get_endpoint` calls under a stable
all-healthy table return the pairs at counter positions `c, c+1, ...`,
leave the stats table and strategy unchanged, and advance the counter by
`k`. -/
theorem runRR_spec (hosts : List String) (ports : List Int) (model : String)
    (now : Time) (h2 : 2 ≤ hosts.length) (hlen : ports.length = hosts.length) :
    ∀ (k : Nat) (lb : LB), lb.strategy = "round_robin" →
      healthyEndpoints lb.stats model now (hosts.zip ports) = hosts.zip ports →
      (runRoundRobin lb hosts ports model now k).1 =
        (List.range k).map (fun i =>
          (hosts.zip ports).getD
            ((counterOf lb.counters model + i) % (hosts.zip ports).length)
            ("", 0)) ∧
      (runRoundRobin lb hosts ports model now k).2.strategy = lb.strategy ∧
      (runRoundRobin lb hosts ports model now k).2.stats = lb.stats ∧
      counterOf (runRoundRobin lb hosts ports model now k).2.counters model =
        counterOf lb.counters model + k := by
  intro k
  induction k with
  | zero => intro lb h1 hh; exact ⟨rfl, rfl, rfl, rfl⟩
  | succ k ih =>
    intro lb h1 hh
    have hstep := rr_step lb hosts ports model now 0 h1 h2 hlen hh
    have hstrat' :
        (LB.mk lb.strategy lb.stats
          (setCounter lb.counters model (counterOf lb.counters model + 1))).strategy =
          "round_robin" := h1
    have hh' : healthyEndpoints
        (LB.mk lb.strategy lb.stats
          (setCounter lb.counters model (counterOf lb.counters model + 1))).stats
        model now (hosts.zip ports) = hosts.zip ports := hh
    obtain ⟨ih1, ih2, ih3, ih4⟩ := ih _ hstrat' hh'
    have hcount' :
        counterOf (setCounter lb.counters model
          (counterOf lb.counters model + 1)) model =
          counterOf lb.counters model + 1 :=
      counterOf_setCounter _ _ _
    simp only [runRoundRobin, hstep]
    refine ⟨?_, ih2, ih3, ?_⟩
    · rw [ih1]
      simp only [hcount']
      rw [List.range_succ_eq_map]
      simp only [List.map_cons, List.map_map, Nat.add_zero]
      refine congrArg₂ List.cons rfl ?_
      apply List.map_congr_left
      intro i hi
      simp only [Function.comp_apply]
      congr 2
      omega
    · rw [ih4, hcount']
      omega

/-- Helper: a rotation, written index-wise. -/
theorem rotate_eq_map_range {α : Type} (l : List α) (c : Nat) (d : α)
    (h : l ≠ []) :
    l.rotate c = (List.range l.length).map
      (fun i => l.getD ((c + i) % l.length) d) := by
  apply List.ext_getElem
  · rw [List.length_rotate, List.length_map, List.length_range]
  · intro i h1 h2
    rw [List.getElem_map, List.getElem_range, List.getElem_rotate]
    have hlt : (c + i) % l.length < l.length :=
      Nat.mod_lt _ (List.length_pos.mpr h)
    rw [List.getD_eq_getElem l d hlt]
    congr 1
    rw [Nat.add_comm i c]

/-- C2: under `round_robin`, with a stable healthy set equal to the full
configured list of `N = hosts.length` endpoints (`N ≥ 2`, distinct pairs,
`ports` already of matching length), `N` consecutive `get_endpoint` calls
return exactly the configured list rotated to start at the current counter
position — so each endpoint is returned exactly once, in list order — and
every call advances the per-model counter by exactly 1. -/
theorem round_robin_coverage (lb : LB) (hosts : List String)
    (ports : List Int) (model : String) (now : Time)
    (hstrat : lb.strategy = "round_robin") (h2 : 2 ≤ hosts.length)
    (hlen : ports.length = hosts.length)
    (hnodup : (hosts.zip ports).Nodup)
    (hhealthy : healthyEndpoints lb.stats model now (hosts.zip ports) =
      hosts.zip ports) :
    (runRoundRobin lb hosts ports model now hosts.length).1 =
      (hosts.zip ports).rotate (counterOf lb.counters model) ∧
    (∀ e ∈ hosts.zip ports,
      ((runRoundRobin lb hosts ports model now hosts.length).1.countP
        (fun x => decide (x = e))) = 1) ∧
    (∀ k : Nat,
      counterOf (runRoundRobin lb hosts ports model now k).2.counters model =
        counterOf lb.counters model + k) := by
  have hzlen : (hosts.zip ports).length = hosts.length := by
    rw [List.length_zip, hlen, min_self]
  have hzne := zip_ne_nil_of_len hosts ports h2 hlen
  obtain ⟨h1, -, -, -⟩ :=
    runRR_spec hosts ports model now h2 hlen hosts.length lb hstrat hhealthy
  have hrot : (runRoundRobin lb hosts ports model now hosts.length).1 =
      (hosts.zip ports).rotate (counterOf lb.counters model) := by
    rw [h1, rotate_eq_map_range (hosts.zip ports)
      (counterOf lb.counters model) ("", 0) hzne, hzlen]
  refine ⟨hrot, fun e he => ?_, fun k =>
    (runRR_spec hosts ports model now h2 hlen k lb hstrat hhealthy).2.2.2⟩
  rw [hrot]
  have hperm := List.rotate_perm (hosts.zip ports) (counterOf lb.counters model)
  exact List.count_eq_one_of_mem (hperm.nodup_iff.mpr hnodup)
    (hperm.symm.subset he)

/-- Concrete instance of `round_robin_coverage`: two fresh healthy endpoints,
counter at 0, two calls return the two endpoints in order. -/
theorem round_robin_coverage_witness :
    (runRoundRobin lbTwo ["a", "b"] [1, 2] "m" 0 2).1 =
      ([("a", 1), ("b", 2)] : List (String × Int)).rotate 0 :=
  (round_robin_coverage lbTwo ["a", "b"] [1, 2] "m" 0 rfl (by decide) rfl
    (by decide) (by decide)).1

/-- Helper: a model with no entries yields no lookup hits. -/
theorem lookup_none_of_noModelEntry (t : StatsTable) (m k : String)
    (h : noModelEntry t m) : lookupStats t m k = none := by
  induction t with
  | nil => rfl
  | cons e t ih =>
    have hne : e.1.1 ≠ m := h e (List.mem_cons_self _ _)
    unfold lookupStats
    rw [if_neg (fun hc => hne (by rw [hc]))]
    exact ih (fun q hq => h q (List.mem_cons_of_mem _ hq))

/-- Helper: `mark_request_start` is the identity when the entry is missing. -/
theorem mark_start_noop (lb : LB) (h : String) (p : Int) (m : String)
    (hnone : lookupStats lb.stats m (endpointKey h p) = none) :
    mark_request_start lb h p m = lb := by
  unfold mark_request_start
  rw [hnone]

/-- Helper: `mark_request_end` is the identity when the entry is missing. -/
theorem mark_end_noop (lb : LB) (h : String) (p : Int) (m : String)
    (success : Bool) (now : Time)
    (hnone : lookupStats lb.stats m (endpointKey h p) = none) :
    mark_request_end lb h p m success now = lb := by
  unfold mark_request_end
  rw [hnone]

/-- Helper: updating entries (of any model) never introduces entries for
another model. -/
theorem noModelEntry_updateStats (t : StatsTable) (m m' k : String)
    (f : EndpointStats → EndpointStats) (h : noModelEntry t m) :
    noModelEntry (updateStats t m' k f) m := by
  intro e he
  rcases List.mem_map.mp he with ⟨e0, he0, heq⟩
  have h0 := h e0 he0
  rw [← heq]
  by_cases hc : e0.1 = (m', k)
  · simpa [hc] using h0
  · simpa [hc] using h0

/-- Helper: creating entries for a different model never introduces entries
for model `m`. -/
theorem noModelEntry_initStats (model' m : String) (hne : model' ≠ m)
    (t : StatsTable) (pairs : List (String × Int)) (h : noModelEntry t m) :
    noModelEntry (initStats model' t pairs) m := by
  induction pairs generalizing t with
  | nil => exact h
  | cons hp rest ih =>
    rcases hp with ⟨hh, pp⟩
    simp only [initStats]
    apply ih
    unfold insertIfMissing
    split
    · exact h
    · intro e he
      rcases List.mem_append.mp he with h1 | h1
      · exact h e h1
      · have he2 : e = ((model', endpointKey hh pp), mkStats hh pp) :=
          List.mem_singleton.mp h1
        rw [he2]
        exact hne

/-- Helper: the post-call stats table of a successful `get_endpoint` is
either untouched (single host) or the entry-creation result for the call's
own model (two or more hosts). -/
theorem get_endpoint_stats (lb : LB) (hosts : List String) (ports : List Int)
    (model : String) (now : Time) (r : Nat) (hp : String × Int) (lb' : LB)
    (h : get_endpoint lb hosts ports model now r = .ok (hp, lb')) :
    lb'.stats = lb.stats ∨
      (2 ≤ hosts.length ∧
        ∃ ports2, lb'.stats = initStats model lb.stats (hosts.zip ports2)) := by
  rcases hosts with _ | ⟨a0, _ | ⟨a1, rest⟩⟩
  · exact absurd h (by simp [get_endpoint])
  · left
    have h' : (Except.ok ((a0, ports.headD 8000), lb) :
        Except String ((String × Int) × LB)) = .ok (hp, lb') := h
    injection h' with h2
    exact (congrArg (fun q => q.2.stats) h2).symm
  · right
    refine ⟨by simp only [List.length_cons]; omega, ?_⟩
    cases hnp : normalizePorts (a0 :: a1 :: rest) ports with
    | none =>
      simp [get_endpoint, hnp] at h
    | some ports2 =>
      refine ⟨ports2, ?_⟩
      simp only [get_endpoint, List.isEmpty_cons, Bool.false_eq_true, if_false,
        hnp] at h
      split_ifs at h
      all_goals exact (congrArg (fun q => q.2.stats) (Except.ok.inj h)).symm

/-- Helper: one balancer API call preserves the absence of entries for a
model whose selections always use a single host. -/
theorem noModelEntry_step (m : String) (op : LBOp) (lb : LB)
    (hop : singleHostFor m op) (hno : noModelEntry lb.stats m) :
    noModelEntry (stepOp lb op).stats m := by
  cases op with
  | select hosts ports model' now r =>
    unfold stepOp
    cases hgep : get_endpoint lb hosts ports model' now r with
    | error e => simp only [hgep]; exact hno
    | ok out =>
      simp only [hgep]
      rcases out with ⟨hp, lb'⟩
      rcases get_endpoint_stats lb hosts ports model' now r hp lb' hgep with
        hst | ⟨hlen2, ports2, hst⟩
      · rw [hst]; exact hno
      · by_cases hm : model' = m
        · have h1 := hop hm
          omega
        · rw [hst]
          exact noModelEntry_initStats model' m hm lb.stats _ hno
  | reqStart h p model' =>
    show noModelEntry (mark_request_start lb h p model').stats m
    unfold mark_request_start
    cases hl : lookupStats lb.stats model' (endpointKey h p) with
    | none => simp only [hl]; exact hno
    | some s =>
      simp only [hl]
      exact noModelEntry_updateStats lb.stats m model' _ _ hno
  | reqEnd h p model' success now =>
    show noModelEntry (mark_request_end lb h p model' success now).stats m
    unfold mark_request_end
    cases hl : lookupStats lb.stats model' (endpointKey h p) with
    | none => simp only [hl]; exact hno
    | some s =>
      simp only [hl]
      exact noModelEntry_updateStats lb.stats m model' _ _ hno

/-- Helper: running a trace whose selections for model `m` are all
single-host keeps model `m` absent from the stats table. -/
theorem noModelEntry_runOps (m : String) :
    ∀ (ops : List LBOp) (lb : LB), (∀ op ∈ ops, singleHostFor m op) →
      noModelEntry lb.stats m → noModelEntry (runOps lb ops).stats m := by
  intro ops
  induction ops with
  | nil => intro lb _ h; exact h
  | cons op rest ih =>
    intro lb hops hno
    exact ih (stepOp lb op)
      (fun q hq => hops q (List.mem_cons_of_mem _ hq))
      (noModelEntry_step m op lb (hops op (List.mem_cons_self _ _)) hno)

/-- C10: for a model whose `get_endpoint` calls always pass a single-element
host list (starting from a table with no entries for it), the stats table
never gains an entry for that model over any trace of balancer calls, so
every `mark_request_start` and `mark_request_end` for that model is a no-op:
failures against a single-endpoint model are never recorded. -/
theorem single_host_model_never_tracked (ops : List LBOp) (lb : LB)
    (m : String) (hops : ∀ op ∈ ops, singleHostFor m op)
    (hno : noModelEntry lb.stats m) :
    noModelEntry (runOps lb ops).stats m ∧
    (∀ (host : String) (port : Int),
      mark_request_start (runOps lb ops) host port m = runOps lb ops) ∧
    (∀ (host : String) (port : Int) (success : Bool) (now : Time),
      mark_request_end (runOps lb ops) host port m success now = runOps lb ops) := by
  have hrun := noModelEntry_runOps m ops lb hops hno
  exact ⟨hrun,
    fun host port => mark_start_noop _ _ _ _
      (lookup_none_of_noModelEntry _ _ _ hrun),
    fun host port success now => mark_end_noop _ _ _ _ _ _
      (lookup_none_of_noModelEntry _ _ _ hrun)⟩

/-- Concrete instance of `single_host_model_never_tracked`: one single-host
selection, a start and a failed end for model `m` leave the fresh balancer
without any entry for `m` and keep the accounting calls no-ops. -/
theorem single_host_model_never_tracked_witness :
    noModelEntry (runOps lbEmpty
      [LBOp.select ["h"] [80] "m" 0 0,
       LBOp.reqStart "h" 80 "m",
       LBOp.reqEnd "h" 80 "m" false 5]).stats "m" ∧
    (∀ (host : String) (port : Int),
      mark_request_start (runOps lbEmpty
        [LBOp.select ["h"] [80] "m" 0 0,
         LBOp.reqStart "h" 80 "m",
         LBOp.reqEnd "h" 80 "m" false 5]) host port "m" =
      runOps lbEmpty
        [LBOp.select ["h"] [80] "m" 0 0,
         LBOp.reqStart "h" 80 "m",
         LBOp.reqEnd "h" 80 "m" false 5]) ∧
    (∀ (host : String) (port : Int) (success : Bool) (now : Time),
      mark_request_end (runOps lbEmpty
        [LBOp.select ["h"] [80] "m" 0 0,
         LBOp.reqStart "h" 80 "m",
         LBOp.reqEnd "h" 80 "m" false 5]) host port "m" success now =
      runOps lbEmpty
        [LBOp.select ["h"] [80] "m" 0 0,
         LBOp.reqStart "h" 80 "m",
         LBOp.reqEnd "h" 80 "m" false 5]) :=
  single_host_model_never_tracked
    [LBOp.select ["h"] [80] "m" 0 0,
     LBOp.reqStart "h" 80 "m",
     LBOp.reqEnd "h" 80 "m" false 5] lbEmpty "m"
    (by
      intro op hop
      rcases List.mem_cons.mp hop with rfl | hop
      · exact fun _ => rfl
      rcases List.mem_cons.mp hop with rfl | hop
      · trivial
      rcases List.mem_cons.mp hop with rfl | hop
      · trivial
      · exact absurd hop (List.not_mem_nil op))
    (fun e he => absurd he (List.not_mem_nil e))

end LoadBalancerModel
